import Mathlib

/-!
Shallow embedding of the quarto_rs rule engine (src/piece.rs and src/field.rs)
and verification of its specification claims.

Machine integers (`u8`, `usize`) are modelled as `Nat`, with explicit `% 256`
where the source's `u8` arithmetic can wrap and with `< 256` hypotheses where a
value stands for a `u8`.  Panicking operations (a failed `assert!`, an
out-of-bounds array index) are modelled by `Option`, `none` being the panic.
-/

namespace Quarto

/-- A quarto piece (`Piece` in src/piece.rs): `properties` models the `u8`
field `properties`. -/
structure Piece where
  properties : Nat
deriving DecidableEq

/-- The four binary piece properties (`Property` in src/piece.rs), each a
single-bit `u8` discriminant. -/
inductive Property where
  | Tall
  | Round
  | Full
  | Light
deriving DecidableEq

/-- The `u8` discriminant of a property (`prop as u8` in the source). -/
def Property.toU8 : Property → Nat
  | Property.Tall => 1
  | Property.Round => 2
  | Property.Full => 4
  | Property.Light => 8

/-- Bitwise NOT on a `u8` value (`!x` in Rust, for `x < 256`). -/
def not8 (n : Nat) : Nat := 255 ^^^ n

/-- `Piece::new_with_props`.  The source first runs
`assert!(props >> 4 == 0, "top bits should be clear")` (modelled as `none` on
failure) and then computes `props & !(props << 4)` as the stored byte. -/
def Piece.new_with_props (props : Nat) : Option Piece :=
  if props >>> 4 = 0 then some ⟨props &&& not8 ((props <<< 4) % 256)⟩ else none

/-- `Piece::new`. -/
def Piece.new : Option Piece := Piece.new_with_props 0

/-- `Piece::set`: the two sequential `u8` bit operations of each branch,
composed in source order. -/
def Piece.set (p : Piece) (prop : Property) (val : Bool) : Piece :=
  if val then ⟨(p.properties ||| prop.toU8) &&& not8 ((prop.toU8 <<< 4) % 256)⟩
  else ⟨(p.properties &&& not8 prop.toU8) ||| ((prop.toU8 <<< 4) % 256)⟩

/-- `Piece::get`: `(self.properties & prop as u8) != 0`. -/
def Piece.get (p : Piece) (prop : Property) : Bool :=
  p.properties &&& prop.toU8 != 0

/-- The board (`Field` in src/field.rs): a 4×4 grid of optional pieces plus
the `square_mode` flag.  The `[[Option<Piece>; 4]; 4]` array is modelled as a
function of the two indices (row first, as in `self.field[y][x]`); only
indices below 4 are ever read or written by the embedded operations. -/
structure Field where
  field : Nat → Nat → Option Piece
  square_mode : Bool

/-- `Field::put`, as a state transformer on the `&mut self` receiver.  The
source indexes `self.field[pos.1][pos.0]` before anything else, which panics
when a coordinate is out of range: that panic is the outer `none`.  Otherwise
the result pairs the returned `Result<(), ()>` with the post-state. -/
def Field.put (f : Field) (pos : Nat × Nat) (piece : Piece) :
    Option (Except Unit Unit × Field) :=
  if pos.2 < 4 ∧ pos.1 < 4 then
    match f.field pos.2 pos.1 with
    | none => some (Except.ok (),
        { f with field := fun y x =>
            if y = pos.2 ∧ x = pos.1 then some piece else f.field y x })
    | some _ => some (Except.error (), f)
  else none

/-- The loop body of `Field::check_array_for_win`: `ret` is the `u8`
accumulator (initially `core::u8::MAX`), an empty cell returns `false`
immediately, and at the end the test is `ret != 0`. -/
def check_array_go (ret : Nat) : List (Option Piece) → Bool
  | [] => ret != 0
  | none :: _ => false
  | some piece :: rest => check_array_go (ret &&& piece.properties) rest

/-- `Field::check_array_for_win`; the failed `assert!(ary.len() == 4)` is
modelled as `none`. -/
def Field.check_array_for_win (ary : List (Option Piece)) : Option Bool :=
  if ary.length = 4 then some (check_array_go 255 ary) else none

/-- Row `y` of the grid, in the order `for row in &self.field` visits it. -/
def Field.row (f : Field) (y : Nat) : List (Option Piece) :=
  (List.range 4).map fun x => f.field y x

/-- Column `x` of the grid: `self.field.iter().map(|r| r[column_idx])`. -/
def Field.col (f : Field) (x : Nat) : List (Option Piece) :=
  (List.range 4).map fun y => f.field y x

/-- The main diagonal: `(0..4).map(|x| self.field[x][x])`. -/
def Field.diagonal (f : Field) : List (Option Piece) :=
  (List.range 4).map fun i => f.field i i

/-- The anti-diagonal: `(0..4).map(|x| self.field[x][3 - x])`. -/
def Field.antidiagonal (f : Field) : List (Option Piece) :=
  (List.range 4).map fun i => f.field i (3 - i)

/-- The flattened 2×2 sub-square with top-left corner at row `i`, column `k`:
`field[i][k..k+2]` followed by `field[i+1][k..k+2]`. -/
def Field.flattened_square (f : Field) (i k : Nat) : List (Option Piece) :=
  [f.field i k, f.field i (k + 1), f.field (i + 1) k, f.field (i + 1) (k + 1)]

/-- `if check(line) { return true }` with panic propagation: a `none` check
aborts, `some true` returns, `some false` falls through to the rest. -/
def orElseWin (a : Option Bool) (rest : Unit → Option Bool) : Option Bool :=
  match a with
  | none => none
  | some true => some true
  | some false => rest ()

/-- A `for` loop over lines that returns `true` on the first winning line and
falls off the end otherwise. -/
def firstWin (lines : List (List (Option Piece))) : Option Bool :=
  match lines with
  | [] => some false
  | l :: rest => orElseWin (Field.check_array_for_win l) fun _ => firstWin rest

/-- `Field::check_field_for_win`: rows, then columns, then the two diagonals,
then (when `square_mode` is set) the nine flattened 2×2 sub-squares in the
nested `i`/`k` loop order of the source. -/
def Field.check_field_for_win (f : Field) : Option Bool :=
  orElseWin (firstWin ((List.range 4).map f.row)) fun _ =>
  orElseWin (firstWin ((List.range 4).map f.col)) fun _ =>
  orElseWin (Field.check_array_for_win f.diagonal) fun _ =>
  orElseWin (Field.check_array_for_win f.antidiagonal) fun _ =>
  if f.square_mode then
    firstWin ((List.range 3).flatMap fun i =>
      (List.range 3).map fun k => f.flattened_square i k)
  else some false

/-- State-passing form of the `&self` method `check_field_for_win`: the body
reads `self.field` and `self.square_mode` but contains no assignment through
`self`, so the method yields its answer together with the receiver unchanged. -/
def Field.check_field_for_win_mut (f : Field) : Option Bool × Field :=
  (f.check_field_for_win, f)

/-- The complement-pair encoding invariant on a property byte: for each of the
four properties, exactly one of its true-side bit `i` and false-side bit
`i + 4` is set. -/
def validEncoding (n : Nat) : Prop :=
  ∀ i < 4, n.testBit i ≠ n.testBit (i + 4)

/-- At least one property has the same truth value in all four pieces. -/
def shares_value (a b c d : Piece) : Prop :=
  ∃ p : Property, a.get p = b.get p ∧ b.get p = c.get p ∧ c.get p = d.get p


instance (n : Nat) : Decidable (validEncoding n) :=
  inferInstanceAs (Decidable (∀ i < 4, n.testBit i ≠ n.testBit (i + 4)))

instance : Fintype Property :=
  ⟨⟨[Property.Tall, Property.Round, Property.Full, Property.Light], by decide⟩,
    fun x => by cases x <;> decide⟩

instance (a b c d : Piece) : Decidable (shares_value a b c d) :=
  inferInstanceAs (Decidable (∃ p : Property,
    a.get p = b.get p ∧ b.get p = c.get p ∧ c.get p = d.get p))

/-- The bit position a property's discriminant occupies. -/
def bitIdx : Property → Nat
  | Property.Tall => 0
  | Property.Round => 1
  | Property.Full => 2
  | Property.Light => 3

/-- The property occupying a given low bit position. -/
def propOfIdx : Nat → Property
  | 0 => Property.Tall
  | 1 => Property.Round
  | 2 => Property.Full
  | _ => Property.Light

lemma toU8_eq_pow (p : Property) : p.toU8 = 2 ^ bitIdx p := by
  cases p <;> rfl

lemma bitIdx_lt (p : Property) : bitIdx p < 4 := by
  cases p <;> decide

lemma bitIdx_propOfIdx (j : Nat) (h : j < 4) : bitIdx (propOfIdx j) = j := by
  interval_cases j <;> rfl

lemma get_eq_testBit (p : Piece) (prop : Property) :
    p.get prop = p.properties.testBit (bitIdx prop) := by
  unfold Piece.get
  rw [toU8_eq_pow, Nat.and_two_pow]
  cases hb : p.properties.testBit (bitIdx prop) <;> simp

example : Piece.new_with_props 9 = some ⟨9⟩ := by decide

example : Piece.new_with_props 16 = none := by decide

example : (Piece.mk 0).set Property.Tall true = ⟨1⟩ := by decide

example : (Piece.mk 1).set Property.Tall false = ⟨16⟩ := by decide

example : check_array_go 255 [some ⟨9⟩, some ⟨9⟩, some ⟨9⟩, some ⟨9⟩] = true := by decide

example : validEncoding (105 : Nat) := by decide

example : ¬ validEncoding (9 : Nat) := by decide

lemma and_255_of_lt (n : Nat) (h : n < 256) : 255 &&& n = n := by
  rw [Nat.and_comm]
  have h8 : n < 2 ^ 8 := by norm_num; omega
  calc n &&& 255 = n &&& 2 ^ 8 - 1 := by norm_num
    _ = n := Nat.and_pow_two_sub_one_of_lt_two_pow h8

lemma testBit_and4 (a b c d j : Nat) :
    (a &&& b &&& c &&& d).testBit j =
      (a.testBit j && b.testBit j && c.testBit j && d.testBit j) := by
  rw [Nat.testBit_and, Nat.testBit_and, Nat.testBit_and]

lemma and4_ne_zero_of_testBit (a b c d j : Nat)
    (h1 : a.testBit j = true) (h2 : b.testBit j = true)
    (h3 : c.testBit j = true) (h4 : d.testBit j = true) :
    a &&& b &&& c &&& d ≠ 0 := by
  intro h0
  have := testBit_and4 a b c d j
  rw [h0, Nat.zero_testBit, h1, h2, h3, h4] at this
  simp at this

lemma testBit_false_of_valid (n i : Nat) (hv : validEncoding n) (hi : i < 4)
    (h : n.testBit (i + 4) = true) : n.testBit i = false := by
  have hne := hv i hi
  rw [h] at hne
  simpa using hne

lemma testBit_high_of_valid (n i : Nat) (hv : validEncoding n) (hi : i < 4)
    (h : n.testBit i = false) : n.testBit (i + 4) = true := by
  have hne := hv i hi
  rw [h] at hne
  exact (Bool.ne_false_iff.mp (Ne.symm hne))

lemma testBit_ge_eight (n j : Nat) (hn : n < 256) (hj : 8 ≤ j) :
    n.testBit j = false := by
  apply Nat.testBit_lt_two_pow
  calc n < 256 := hn
    _ = 2 ^ 8 := by norm_num
    _ ≤ 2 ^ j := Nat.pow_le_pow_right (by norm_num) hj

/-- Claim C2: for four pieces each satisfying the complement-pair encoding
(for each property exactly one of true-side bit `i` and false-side bit `i + 4`
is set), the bitwise AND of their property bytes is nonzero iff at least one
property has the same truth value in all four pieces; and this AND-nonzero
test is exactly what `check_array_for_win` computes on a fully occupied
line of those four pieces. -/
theorem c2 (a b c d : Piece)
    (ha : a.properties < 256) (hb : b.properties < 256)
    (hc : c.properties < 256) (hd : d.properties < 256)
    (hva : validEncoding a.properties) (hvb : validEncoding b.properties)
    (hvc : validEncoding c.properties) (hvd : validEncoding d.properties) :
    ((a.properties &&& b.properties &&& c.properties &&& d.properties ≠ 0) ↔
      shares_value a b c d) ∧
    Field.check_array_for_win [some a, some b, some c, some d] =
      some (a.properties &&& b.properties &&& c.properties &&& d.properties != 0) := by
  constructor
  · constructor
    · intro h
      obtain ⟨j, hj⟩ := Nat.ne_zero_implies_bit_true h
      rw [testBit_and4] at hj
      simp only [Bool.and_eq_true] at hj
      obtain ⟨⟨⟨hA, hB⟩, hC⟩, hD⟩ := hj
      have hj8 : j < 8 := by
        by_contra hge
        push_neg at hge
        rw [testBit_ge_eight a.properties j ha hge] at hA
        exact Bool.false_ne_true hA
      rcases Nat.lt_or_ge j 4 with h4 | h4
      · refine ⟨propOfIdx j, ?_⟩
        simp [get_eq_testBit, bitIdx_propOfIdx j h4, hA, hB, hC, hD]
      · have hi4 : j - 4 < 4 := by omega
        have hij : j - 4 + 4 = j := by omega
        refine ⟨propOfIdx (j - 4), ?_⟩
        have fa := testBit_false_of_valid a.properties (j - 4) hva hi4 (by rw [hij]; exact hA)
        have fb := testBit_false_of_valid b.properties (j - 4) hvb hi4 (by rw [hij]; exact hB)
        have fc := testBit_false_of_valid c.properties (j - 4) hvc hi4 (by rw [hij]; exact hC)
        have fd := testBit_false_of_valid d.properties (j - 4) hvd hi4 (by rw [hij]; exact hD)
        simp [get_eq_testBit, bitIdx_propOfIdx (j - 4) hi4, fa, fb, fc, fd]
    · rintro ⟨p, hab, hbc, hcd⟩
      have hi := bitIdx_lt p
      rw [get_eq_testBit, get_eq_testBit] at hab hbc hcd
      cases hg : a.properties.testBit (bitIdx p) with
      | true =>
          apply and4_ne_zero_of_testBit a.properties b.properties c.properties d.properties
            (bitIdx p) hg (hab ▸ hg) (hbc ▸ hab ▸ hg) (hcd ▸ hbc ▸ hab ▸ hg)
      | false =>
          have ta := testBit_high_of_valid a.properties (bitIdx p) hva hi hg
          have tb := testBit_high_of_valid b.properties (bitIdx p) hvb hi (hab ▸ hg)
          have tc := testBit_high_of_valid c.properties (bitIdx p) hvc hi (hbc ▸ hab ▸ hg)
          have td := testBit_high_of_valid d.properties (bitIdx p) hvd hi (hcd ▸ hbc ▸ hab ▸ hg)
          exact and4_ne_zero_of_testBit a.properties b.properties c.properties d.properties
            (bitIdx p + 4) ta tb tc td
  · have e : Field.check_array_for_win [some a, some b, some c, some d] =
        some (255 &&& a.properties &&& b.properties &&& c.properties &&& d.properties != 0) :=
      rfl
    rw [e, and_255_of_lt a.properties ha]

/-- Witness for C2 at four concrete validly encoded pieces. -/
theorem c2_witness :
    (((105 : Nat) &&& 105 &&& 105 &&& 105 ≠ 0) ↔
      shares_value ⟨105⟩ ⟨105⟩ ⟨105⟩ ⟨105⟩) ∧
    Field.check_array_for_win [some ⟨105⟩, some ⟨105⟩, some ⟨105⟩, some ⟨105⟩] =
      some ((105 : Nat) &&& 105 &&& 105 &&& 105 != 0) :=
  c2 ⟨105⟩ ⟨105⟩ ⟨105⟩ ⟨105⟩ (by decide) (by decide) (by decide) (by decide)
    (by decide) (by decide) (by decide) (by decide)

set_option maxRecDepth 100000 in
set_option maxHeartbeats 2000000 in
lemma set_get_byte : ∀ m, m < 256 → ∀ p : Property, ∀ w : Bool,
    ((Piece.mk m).set p w).get p = w ∧
    ∀ q : Property, q ≠ p → ((Piece.mk m).set p w).get q = (Piece.mk m).get q := by
  decide

/-- Claim C9: for every piece (any `u8` byte), property `p` and boolean `v`,
after `set p v` the value `get p` is `v`, and `get q` is unchanged for every
property `q` distinct from `p`. -/
theorem c9 (p : Piece) (hp : p.properties < 256) (prop : Property) (v : Bool) :
    (p.set prop v).get prop = v ∧
    ∀ q : Property, q ≠ prop → (p.set prop v).get q = p.get q :=
  set_get_byte p.properties hp prop v

/-- Witness for C9 at a concrete piece, property and value. -/
theorem c9_witness :
    ((Piece.mk 9).set Property.Round true).get Property.Round = true ∧
    ((Piece.mk 9).set Property.Round true).get Property.Tall = (Piece.mk 9).get Property.Tall :=
  ⟨(c9 ⟨9⟩ (by decide) Property.Round true).1,
    (c9 ⟨9⟩ (by decide) Property.Round true).2 Property.Tall (by decide)⟩

/-- A board whose first row holds the pieces `new_with_props` builds from the
assignments 1, 2, 8 and 0: four pieces that all have `Full = false` (and agree
on no other property), so the claim's unanimity condition holds. -/
def fieldC1 : Field :=
  ⟨fun y x =>
    if y = 0 then
      if x = 0 then some ⟨1⟩
      else if x = 1 then some ⟨2⟩
      else if x = 2 then some ⟨8⟩
      else if x = 3 then some ⟨0⟩
      else none
    else none, false⟩

/-- Claim C1 fails on the code: the four pieces produced by `new_with_props`
from 1, 2, 8, 0 fill row 0 and unanimously have `Full = false`, yet
`check_field_for_win` returns `false`, because `new_with_props` never sets the
false-side complement bits that the win test's bitwise AND relies on. -/
theorem c1_bug :
    (Piece.new_with_props 1 = some ⟨1⟩ ∧ Piece.new_with_props 2 = some ⟨2⟩ ∧
      Piece.new_with_props 8 = some ⟨8⟩ ∧ Piece.new_with_props 0 = some ⟨0⟩) ∧
    ((Piece.mk 1).get Property.Full = false ∧ (Piece.mk 2).get Property.Full = false ∧
      (Piece.mk 8).get Property.Full = false ∧ (Piece.mk 0).get Property.Full = false) ∧
    fieldC1.check_field_for_win = some false := by
  refine ⟨by decide, by decide, ?_⟩
  decide

/-- Claim C3 fails on the code: `new_with_props 9` accepts the valid 4-bit
assignment 9 but stores the byte 9 itself, in which the properties `Round` and
`Full` have neither their true-side bit nor their false-side bit set, so the
complement-pair invariant does not hold after construction. -/
theorem c3_bug :
    Piece.new_with_props 9 = some ⟨9⟩ ∧ ¬ validEncoding (Piece.mk 9).properties := by
  constructor
  · decide
  · decide

/-- Claim C5: constructing a piece from a raw byte with any bit outside the 4
low positions set is rejected (the `assert!` fails, modelled as `none`): it
never yields a piece and never silently truncates; a byte with only low bits
set is accepted. -/
theorem c5 (props : Nat) (h : props < 256) :
    (props >>> 4 ≠ 0 → Piece.new_with_props props = none) ∧
    (props >>> 4 = 0 → ∃ p, Piece.new_with_props props = some p) := by
  constructor
  · intro hz
    unfold Piece.new_with_props
    rw [if_neg hz]
  · intro hz
    refine ⟨⟨props &&& not8 ((props <<< 4) % 256)⟩, ?_⟩
    unfold Piece.new_with_props
    rw [if_pos hz]

/-- Witness for C5: byte 16 (a high bit set) is rejected, byte 9 is accepted. -/
theorem c5_witness :
    Piece.new_with_props 16 = none ∧ (Piece.new_with_props 9).isSome = true := by
  constructor
  · exact (c5 16 (by decide)).1 (by decide)
  · obtain ⟨p, hp⟩ := (c5 9 (by decide)).2 (by decide)
    rw [hp]
    rfl

/-- Claim C4: for every board and in-range position, `put` on an occupied
cell returns the occupied-cell error with the board (all cells and
`square_mode`) unchanged, and `put` on an empty cell succeeds, stores exactly
that piece at that position, and changes no other cell. -/
theorem c4 (f : Field) (x y : Nat) (piece : Piece) (hx : x < 4) (hy : y < 4) :
    (∀ p, f.field y x = some p → f.put (x, y) piece = some (Except.error (), f)) ∧
    (f.field y x = none →
      ∃ f', f.put (x, y) piece = some (Except.ok (), f') ∧
        f'.field y x = some piece ∧
        (∀ y' x', ¬(y' = y ∧ x' = x) → f'.field y' x' = f.field y' x') ∧
        f'.square_mode = f.square_mode) := by
  constructor
  · intro p hp
    unfold Field.put
    rw [if_pos ⟨hy, hx⟩]
    show (match f.field y x with
      | none => _
      | some _ => some (Except.error (), f)) = some (Except.error (), f)
    rw [hp]
  · intro hp
    refine ⟨{ f with field := fun y' x' =>
        if y' = y ∧ x' = x then some piece else f.field y' x' }, ?_, ?_, ?_, rfl⟩
    · unfold Field.put
      rw [if_pos ⟨hy, hx⟩]
      show (match f.field y x with
        | none => some (Except.ok (), _)
        | some _ => _) = _
      rw [hp]
    · simp
    · intro y' x' hne
      simp only [if_neg hne]

/-- Witness for C4: on a concrete board with (0,0) occupied and (1,1) empty,
the occupied `put` fails leaving the board intact and the empty `put`
succeeds. -/
theorem c4_witness :
    (⟨fun y x => if y = 0 ∧ x = 0 then some ⟨9⟩ else none, false⟩ : Field).put (0, 0) ⟨6⟩ =
      some (Except.error (), ⟨fun y x => if y = 0 ∧ x = 0 then some ⟨9⟩ else none, false⟩) ∧
    (∃ f', (⟨fun y x => if y = 0 ∧ x = 0 then some ⟨9⟩ else none, false⟩ : Field).put (1, 1) ⟨6⟩ =
      some (Except.ok (), f') ∧ f'.field 1 1 = some ⟨6⟩ ∧
      (∀ y' x', ¬(y' = 1 ∧ x' = 1) → f'.field y' x' =
        (⟨fun y x => if y = 0 ∧ x = 0 then some ⟨9⟩ else none, false⟩ : Field).field y' x') ∧
      f'.square_mode = false) :=
  ⟨(c4 ⟨fun y x => if y = 0 ∧ x = 0 then some ⟨9⟩ else none, false⟩ 0 0 ⟨6⟩
      (by decide) (by decide)).1 ⟨9⟩ (by decide),
    (c4 ⟨fun y x => if y = 0 ∧ x = 0 then some ⟨9⟩ else none, false⟩ 1 1 ⟨6⟩
      (by decide) (by decide)).2 (by decide)⟩

/-- Claim C8: `put` does no coordinate validation of its own: with both
coordinates below 4 the indexing is in bounds and `put` returns a `Result`
(never panics), while any coordinate of 4 or more makes the indexing panic
(the outer `none`) instead of reporting through the `Result`. -/
theorem c8 (f : Field) (x y : Nat) (piece : Piece) :
    (x < 4 → y < 4 → ∃ r, f.put (x, y) piece = some r) ∧
    (4 ≤ x ∨ 4 ≤ y → f.put (x, y) piece = none) := by
  constructor
  · intro hx hy
    unfold Field.put
    rw [if_pos ⟨hy, hx⟩]
    cases f.field y x <;> exact ⟨_, rfl⟩
  · intro h
    unfold Field.put
    rw [if_neg]
    rintro ⟨hy, hx⟩
    omega

/-- Witness for C8: on the empty board an in-range `put` yields a value while
either out-of-range coordinate panics. -/
theorem c8_witness :
    (⟨fun _ _ => none, false⟩ : Field).put (4, 0) ⟨9⟩ = none ∧
    (⟨fun _ _ => none, false⟩ : Field).put (0, 4) ⟨9⟩ = none ∧
    ((⟨fun _ _ => none, false⟩ : Field).put (0, 0) ⟨9⟩).isSome = true := by
  refine ⟨(c8 ⟨fun _ _ => none, false⟩ 4 0 ⟨9⟩).2 (Or.inl (by decide)),
    (c8 ⟨fun _ _ => none, false⟩ 0 4 ⟨9⟩).2 (Or.inr (by decide)), ?_⟩
  obtain ⟨r, hr⟩ := (c8 ⟨fun _ _ => none, false⟩ 0 0 ⟨9⟩).1 (by decide) (by decide)
  rw [hr]
  rfl

lemma check_array_go_of_none (l : List (Option Piece)) :
    ∀ r, none ∈ l → check_array_go r l = false := by
  induction l with
  | nil => intro r h; exact absurd h (List.not_mem_nil none)
  | cons hd tl ih =>
    intro r h
    cases hd with
    | none => rfl
    | some p =>
      show check_array_go (r &&& p.properties) tl = false
      apply ih
      rcases List.mem_cons.mp h with h1 | h1
      · simp at h1
      · exact h1

lemma check_array_of_none (l : List (Option Piece)) (hlen : l.length = 4)
    (h : none ∈ l) : Field.check_array_for_win l = some false := by
  unfold Field.check_array_for_win
  rw [if_pos hlen, check_array_go_of_none l 255 h]

lemma check_array_isSome (l : List (Option Piece)) (h : l.length = 4) :
    ∃ b, Field.check_array_for_win l = some b := by
  unfold Field.check_array_for_win
  rw [if_pos h]
  exact ⟨_, rfl⟩

lemma firstWin_all_false (lines : List (List (Option Piece)))
    (h : ∀ l ∈ lines, Field.check_array_for_win l = some false) :
    firstWin lines = some false := by
  induction lines with
  | nil => rfl
  | cons hd tl ih =>
    show orElseWin (Field.check_array_for_win hd) (fun _ => firstWin tl) = some false
    rw [h hd (List.mem_cons_self hd tl)]
    show firstWin tl = some false
    exact ih fun l hl => h l (List.mem_cons_of_mem hd hl)

lemma firstWin_of_true (lines : List (List (Option Piece)))
    (hall : ∀ l ∈ lines, ∃ b, Field.check_array_for_win l = some b)
    (hex : ∃ l ∈ lines, Field.check_array_for_win l = some true) :
    firstWin lines = some true := by
  induction lines with
  | nil =>
    obtain ⟨l, hl, _⟩ := hex
    exact absurd hl (List.not_mem_nil l)
  | cons hd tl ih =>
    obtain ⟨b, hb⟩ := hall hd (List.mem_cons_self hd tl)
    show orElseWin (Field.check_array_for_win hd) (fun _ => firstWin tl) = some true
    rw [hb]
    cases b with
    | true => rfl
    | false =>
      show firstWin tl = some true
      apply ih
      · exact fun l hl => hall l (List.mem_cons_of_mem hd hl)
      · obtain ⟨l, hl, hlt⟩ := hex
        rcases List.mem_cons.mp hl with rfl | hl2
        · rw [hb] at hlt
          exact absurd hlt (by simp)
        · exact ⟨l, hl2, hlt⟩

lemma row_length (f : Field) (y : Nat) : (f.row y).length = 4 := by
  simp [Field.row]

lemma col_length (f : Field) (x : Nat) : (f.col x).length = 4 := by
  simp [Field.col]

lemma diagonal_length (f : Field) : f.diagonal.length = 4 := by
  simp [Field.diagonal]

lemma antidiagonal_length (f : Field) : f.antidiagonal.length = 4 := by
  simp [Field.antidiagonal]

lemma orElseWin_false (g : Unit → Option Bool) : orElseWin (some false) g = g () := rfl

lemma firstWin_rows_false (f : Field)
    (h : ∀ y < 4, Field.check_array_for_win (f.row y) = some false) :
    firstWin ((List.range 4).map f.row) = some false := by
  apply firstWin_all_false
  intro l hl
  obtain ⟨y, hy, rfl⟩ := List.mem_map.mp hl
  exact h y (List.mem_range.mp hy)

lemma firstWin_cols_false (f : Field)
    (h : ∀ x < 4, Field.check_array_for_win (f.col x) = some false) :
    firstWin ((List.range 4).map f.col) = some false := by
  apply firstWin_all_false
  intro l hl
  obtain ⟨x, hx, rfl⟩ := List.mem_map.mp hl
  exact h x (List.mem_range.mp hx)

lemma firstWin_squares_false (f : Field)
    (h : ∀ i < 3, ∀ k < 3, Field.check_array_for_win (f.flattened_square i k) = some false) :
    firstWin ((List.range 3).flatMap fun i =>
      (List.range 3).map fun k => f.flattened_square i k) = some false := by
  apply firstWin_all_false
  intro l hl
  obtain ⟨i, hi, hl2⟩ := List.mem_flatMap.mp hl
  obtain ⟨k, hk, rfl⟩ := List.mem_map.mp hl2
  exact h i (List.mem_range.mp hi) k (List.mem_range.mp hk)

lemma check_field_eq_of_parts (f : Field)
    (hrows : firstWin ((List.range 4).map f.row) = some false)
    (hcols : firstWin ((List.range 4).map f.col) = some false)
    (hdiag : Field.check_array_for_win f.diagonal = some false)
    (hanti : Field.check_array_for_win f.antidiagonal = some false) :
    f.check_field_for_win = (if f.square_mode then
      firstWin ((List.range 3).flatMap fun i =>
        (List.range 3).map fun k => f.flattened_square i k)
    else some false) := by
  unfold Field.check_field_for_win
  rw [hrows, orElseWin_false, hcols, orElseWin_false, hdiag, orElseWin_false,
    hanti, orElseWin_false]

/-- Claim C7: a line with an empty cell is never counted as a win, and
`check_field_for_win` returns `false` on every board (the empty board in
particular) in which each evaluated line — every row, column, both diagonals
and, when `square_mode` is on, every 2×2 sub-square — contains an empty
cell. -/
theorem c7 :
    (∀ l : List (Option Piece), l.length = 4 → none ∈ l →
      Field.check_array_for_win l = some false) ∧
    (∀ f : Field, (∀ y < 4, none ∈ f.row y) → (∀ x < 4, none ∈ f.col x) →
      none ∈ f.diagonal → none ∈ f.antidiagonal →
      (f.square_mode = true → ∀ i < 3, ∀ k < 3, none ∈ f.flattened_square i k) →
      f.check_field_for_win = some false) := by
  constructor
  · exact fun l h1 h2 => check_array_of_none l h1 h2
  · intro f hrow hcol hdiag hanti hsq
    rw [check_field_eq_of_parts f
      (firstWin_rows_false f fun y hy => check_array_of_none _ (row_length f y) (hrow y hy))
      (firstWin_cols_false f fun x hx => check_array_of_none _ (col_length f x) (hcol x hx))
      (check_array_of_none _ (diagonal_length f) hdiag)
      (check_array_of_none _ (antidiagonal_length f) hanti)]
    cases hm : f.square_mode with
    | false => rfl
    | true =>
      exact firstWin_squares_false f fun i hi k hk =>
        check_array_of_none _ rfl (hsq hm i hi k hk)

/-- The empty board, with `square_mode` on. -/
def fieldEmpty : Field := ⟨fun _ _ => none, true⟩

/-- Witness for C7: a concrete line with an empty cell and the empty board. -/
theorem c7_witness :
    Field.check_array_for_win [none, some ⟨9⟩, some ⟨9⟩, some ⟨9⟩] = some false ∧
    fieldEmpty.check_field_for_win = some false :=
  ⟨c7.1 [none, some ⟨9⟩, some ⟨9⟩, some ⟨9⟩] (by decide) (by decide),
    c7.2 fieldEmpty (by decide) (by decide) (by decide) (by decide) (by decide)⟩

/-- Claim C6: a board with a fully matching 2×2 block (winning under the
shared-property test) and no winning row, column or diagonal is not a win
when `square_mode` is off and is a win when `square_mode` is on; any of the
nine sub-square corners `(i, k)` with `i, k < 3` triggers this. -/
theorem c6 (f : Field) (i k : Nat) (hi : i < 3) (hk : k < 3)
    (hsq : Field.check_array_for_win (f.flattened_square i k) = some true)
    (hrow : ∀ y < 4, Field.check_array_for_win (f.row y) = some false)
    (hcol : ∀ x < 4, Field.check_array_for_win (f.col x) = some false)
    (hdiag : Field.check_array_for_win f.diagonal = some false)
    (hanti : Field.check_array_for_win f.antidiagonal = some false) :
    Field.check_field_for_win { f with square_mode := false } = some false ∧
    Field.check_field_for_win { f with square_mode := true } = some true := by
  constructor
  · have h1 := check_field_eq_of_parts { f with square_mode := false }
      (firstWin_rows_false f hrow) (firstWin_cols_false f hcol) hdiag hanti
    exact h1.trans rfl
  · have h2 := check_field_eq_of_parts { f with square_mode := true }
      (firstWin_rows_false f hrow) (firstWin_cols_false f hcol) hdiag hanti
    refine h2.trans ?_
    show firstWin ((List.range 3).flatMap fun a =>
      (List.range 3).map fun b => f.flattened_square a b) = some true
    apply firstWin_of_true
    · intro l hl
      obtain ⟨a, ha2, hl2⟩ := List.mem_flatMap.mp hl
      obtain ⟨b, hb2, rfl⟩ := List.mem_map.mp hl2
      exact check_array_isSome _ rfl
    · exact ⟨f.flattened_square i k,
        List.mem_flatMap.mpr ⟨i, List.mem_range.mpr hi,
          List.mem_map.mpr ⟨k, List.mem_range.mpr hk, rfl⟩⟩, hsq⟩

/-- A board whose 2×2 block at rows 2–3, columns 2–3 holds four pieces that
share their `Tall` bit, completing no row, column or diagonal. -/
def fieldC6 : Field :=
  ⟨fun y x => if 2 ≤ y ∧ 2 ≤ x ∧ y ≤ 3 ∧ x ≤ 3 then some ⟨9⟩ else none, false⟩

/-- Witness for C6 at the concrete matching block. -/
theorem c6_witness :
    Field.check_field_for_win { fieldC6 with square_mode := false } = some false ∧
    Field.check_field_for_win { fieldC6 with square_mode := true } = some true :=
  c6 fieldC6 2 2 (by decide) (by decide) (by decide) (by decide) (by decide)
    (by decide) (by decide)

/-- Claim C10: `check_field_for_win` leaves the board (cells and
`square_mode`) unchanged, and its answer depends only on the board state, so
repeated calls without intervening `put` return the same boolean. -/
theorem c10 :
    (∀ f : Field, (Field.check_field_for_win_mut f).2 = f) ∧
    (∀ f : Field,
      (Field.check_field_for_win_mut (Field.check_field_for_win_mut f).2).1 =
        (Field.check_field_for_win_mut f).1) ∧
    (∀ f g : Field, f.field = g.field → f.square_mode = g.square_mode →
      (Field.check_field_for_win_mut f).1 = (Field.check_field_for_win_mut g).1) := by
  refine ⟨fun f => rfl, fun f => rfl, ?_⟩
  intro f g h1 h2
  obtain ⟨ff, fm⟩ := f
  obtain ⟨gf, gm⟩ := g
  have h1' : ff = gf := h1
  have h2' : fm = gm := h2
  cases h1'
  cases h2'
  rfl

/-- A second, definitionally separate copy of the empty board. -/
def fieldEmpty2 : Field := ⟨fun _ _ => none, true⟩

/-- Witness for C10 on the empty board. -/
theorem c10_witness :
    (Field.check_field_for_win_mut fieldEmpty).2 = fieldEmpty ∧
    (Field.check_field_for_win_mut fieldEmpty).1 =
      (Field.check_field_for_win_mut fieldEmpty2).1 :=
  ⟨c10.1 fieldEmpty, c10.2.2 fieldEmpty fieldEmpty2 rfl rfl⟩

end Quarto
